import Mathlib

/-!
# Conversion-webhook scale benchmark: verification of `util.go`

A shallow embedding of the helper functions of `util.go` (payload generator,
scenario resolution, environment preparation) and of the benchmark drivers of
`scale_test.go` that use them.

Conventions of the embedding

* Go `int` is the 64-bit two's-complement integer: values are `Int`s in
  `[-2^63, 2^63)` and `wrapInt` is applied where an operation can leave the range.
* Go strings made of ASCII bytes are `List Char`; `len` is `List.length`.
* `math/rand` is a stream `rnd : Nat → Nat` of raw draws together with the number
  `k` of draws already consumed: the `k`-th call `rand.Intn(n)` yields `rnd k % n`.
  Every sequence of results that `rand.Intn` can produce arises from some stream.
* Remote calls are functions on an explicit remote state; every call that is issued
  is appended to a trace.
-/

set_option linter.unusedVariables false

namespace ScaleBench

/-! ## Machine integers -/

/-- Two's-complement wrap-around of a 64-bit Go `int`. -/
def wrapInt (x : Int) : Int := (x + 2 ^ 63) % 2 ^ 64 - 2 ^ 63

/-- The values of a 64-bit Go `int`. -/
def IsGoInt (x : Int) : Prop := -2 ^ 63 ≤ x ∧ x < 2 ^ 63

instance (x : Int) : Decidable (IsGoInt x) := by unfold IsGoInt; infer_instance

/-! ## `mustIncreaseObjectSize`: the filler generator -/

/-- The local `letters := "abcdefghijklmnopqrstuvwxyz"`. -/
def letters : List Char := "abcdefghijklmnopqrstuvwxyz".toList

/-- The local `digits := "0123456789"`. -/
def digits : List Char := "0123456789".toList

/-- State of the generator loop: the bytes written to `sb` so far and the number of
random draws consumed so far. -/
structure GenState where
  sb : List Char
  k : Nat
deriving DecidableEq, Repr

/-- The inner loops `for i := 0; i < n; i += 1 { sb.WriteRune(rune(alphabet[rand.Intn(len(alphabet))])) }`.
Every rune of `letters` and `digits` is ASCII, so `WriteRune` appends one byte. -/
def writeRunes (alphabet : List Char) (rnd : Nat → Nat) : Nat → GenState → GenState
  | 0, st => st
  | n + 1, st =>
    writeRunes alphabet rnd n
      ⟨st.sb ++ [alphabet.getD (rnd st.k % alphabet.length) ','], st.k + 1⟩

/-- One pass through the body of `for true { ... }`; `none` is the `break`. -/
def loopStep (size : Int) (rnd : Nat → Nat) (st : GenState) : Option GenState :=
  let max_length := wrapInt (size - (st.sb.length : Int) - 1)
  if max_length < 2 then none
  else
    let drawn : Int := ((rnd st.k % 19 : Nat) : Int) + 2
    let part_length := if drawn > max_length then max_length else drawn
    let num_letters := Int.tdiv part_length 2
    let num_digits := part_length - num_letters
    let st1 := writeRunes letters rnd num_letters.toNat ⟨st.sb, st.k + 1⟩
    let st2 := writeRunes digits rnd num_digits.toNat st1
    some ⟨st2.sb ++ [','], st2.k⟩

/-- The loop `for true { ... }` run to its `break`.  The remaining budget
`max_length` is at least 2 whenever the body runs and the body consumes between 3 and
`max_length + 1` bytes of it, so it decreases without wrapping: the loop terminates for
every `size`. -/
def genLoop (size : Int) (rnd : Nat → Nat) (st : GenState) : GenState :=
  match h : loopStep size rnd st with
  | none => st
  | some st' => genLoop size rnd st'
termination_by (wrapInt (size - (st.sb.length : Int) - 1)).toNat
decreasing_by
  have wl : ∀ (alphabet : List Char) (n : Nat) (s : GenState),
      (writeRunes alphabet rnd n s).sb.length = s.sb.length + n := by
    intro alphabet n
    induction n with
    | zero => intro s; rfl
    | succ n ih => intro s; simp [writeRunes, ih]; omega
  unfold loopStep at h
  simp only at h
  split at h
  · exact absurd h (by simp)
  · rename_i hM
    have hst := (Option.some.inj h).symm
    generalize hMdef : wrapInt (size - (st.sb.length : Int) - 1) = M at hM hst
    generalize hd : ((rnd st.k % 19 : Nat) : Int) + 2 = d at hst
    have hd2 : 2 ≤ d ∧ d ≤ 20 := by
      have := Nat.mod_lt (rnd st.k) (show 0 < 19 by decide)
      omega
    generalize hpl : (if d > M then M else d) = part at hst
    have hpart : 2 ≤ part ∧ part ≤ 20 ∧ part ≤ M := by
      split at hpl <;> omega
    have htd : Int.tdiv part 2 = part / 2 :=
      Int.tdiv_eq_ediv (by omega) (by decide)
    rw [htd] at hst
    have hlen : st'.sb.length
        = st.sb.length + (part / 2).toNat + (part - part / 2).toNat + 1 := by
      rw [hst]
      simp [wl]
    rw [hlen]
    unfold wrapInt at hMdef ⊢
    push_cast
    omega

/-- The value of `generated_data := sb.String()` in `mustIncreaseObjectSize`. -/
def generatedData (size : Int) (rnd : Nat → Nat) : List Char :=
  (genLoop size rnd ⟨[], 0⟩).sb

/-- The state after `n` passes through the loop body, `none` when the loop has left
through `break` before the `n`-th pass. -/
def stepN (size : Int) (rnd : Nat → Nat) : Nat → GenState → Option GenState
  | 0, st => some st
  | n + 1, st => (loopStep size rnd st).bind (stepN size rnd n)

/-! ## The validation rule `self.data.matches(r'^([a-z]+[0-9]+,)+$')` -/

/-- The regular expressions that occur in `validationSchema`. -/
inductive Regex where
  | range (lo hi : Char)
  | lit (c : Char)
  | seq (r s : Regex)
  | plus (r : Regex)
deriving DecidableEq, Repr

/-- The text `x` as a whole is matched by `r` (the rule anchors the expression with
`^` and `$`). -/
inductive Matches : Regex → List Char → Prop where
  | range {lo hi c : Char} : lo ≤ c → c ≤ hi → Matches (Regex.range lo hi) [c]
  | lit {c : Char} : Matches (Regex.lit c) [c]
  | seq {r s : Regex} {x y : List Char} :
      Matches r x → Matches s y → Matches (Regex.seq r s) (x ++ y)
  | plusOne {r : Regex} {x : List Char} : Matches r x → Matches (Regex.plus r) x
  | plusMore {r : Regex} {x y : List Char} :
      Matches r x → Matches (Regex.plus r) y → Matches (Regex.plus r) (x ++ y)

/-- The chunk `[a-z]+[0-9]+,`. -/
def chunkRegex : Regex :=
  Regex.seq (Regex.plus (Regex.range 'a' 'z'))
    (Regex.seq (Regex.plus (Regex.range '0' '9')) (Regex.lit ','))

/-- The expression `([a-z]+[0-9]+,)+` of `validationSchema`. -/
def validationRegex : Regex := Regex.plus chunkRegex

/-! ## Templates as unstructured objects

`yaml.Unmarshal` and `yaml.Marshal` belong to an external library; a template is
represented by the object it unmarshals to. -/

/-- A JSON value of an `unstructured.Unstructured`: a string or a map. -/
inductive Value where
  | str (s : List Char)
  | obj (fields : List (String × Value))

/-- The map `u.Object`. -/
abbrev Obj := List (String × Value)

/-- The map lookup `m[k]`. -/
def lookupKey : Obj → String → Option Value
  | [], _ => none
  | (k', v) :: rest, k => if k' = k then some v else lookupKey rest k

/-- The map assignment `m[k] = v`. -/
def setKey : Obj → String → Value → Obj
  | [], k, v => [(k, v)]
  | (k', v') :: rest, k, v =>
    if k' = k then (k, v) :: rest else (k', v') :: setKey rest k v

/-- The call `unstructured.SetNestedField(obj, value, fields...)` of the apimachinery
library: walks the maps named by all but the last field, creating the missing ones, and
assigns the value under the last field.  An intermediate value that is not a map is an
error; an empty field list makes the slice expression `fields[:len(fields)-1]` fail. -/
def SetNestedField : Obj → Value → List String → Except String Obj
  | _, _, [] => Except.error "slice bounds out of range"
  | m, v, [f] => Except.ok (setKey m f v)
  | m, v, f :: g :: rest =>
    match lookupKey m f with
    | some (Value.obj m') =>
      (SetNestedField m' v (g :: rest)).map (fun r => setKey m f (Value.obj r))
    | some (Value.str _) => Except.error "value cannot be set because it is not a map"
    | none =>
      (SetNestedField [] v (g :: rest)).map (fun r => setKey m f (Value.obj r))

/-- The read `unstructured.NestedString(obj, fields...)`: the string stored at a path. -/
def NestedString : Obj → List String → Option (List Char)
  | _, [] => none
  | m, [f] =>
    match lookupKey m f with
    | some (Value.str s) => some s
    | _ => none
  | m, f :: g :: rest =>
    match lookupKey m f with
    | some (Value.obj m') => NestedString m' (g :: rest)
    | _ => none

/-- The function `mustIncreaseObjectSize(data, size, fields...)`; `Except.error` is a
panic. -/
def mustIncreaseObjectSize (data : Obj) (size : Int) (fields : List String)
    (rnd : Nat → Nat) : Except String Obj :=
  SetNestedField data (Value.str (generatedData size rnd)) fields

/-! ## Package variables -/

/-- A `schema.GroupVersionResource`. -/
structure GroupVersionResource where
  Group : String
  Version : String
  Resource : String
deriving DecidableEq, Repr

/-- The descriptor of the custom resource `foos.stable.example.com`. -/
def foov1GVR : GroupVersionResource := ⟨"stable.example.com", "v1", "foos"⟩
/-- The descriptor of the built-in `endpoints`. -/
def endpointsGVR : GroupVersionResource := ⟨"", "v1", "endpoints"⟩
/-- The sentinel descriptor for names `getGVR` cannot resolve. -/
def notfoundGVR : GroupVersionResource := ⟨"", "error", "notfound"⟩

def emptyNamespace : String := "empty"
def largeDataNamespace : String := "large-data"
def largeMetadataNamespace : String := "large-metadata"

def fooName : String := "foos.stable.example.com"

/-- The size given to `mustIncreaseObjectSize`; the generator counts it in bytes. -/
def largeDataSize : Int := 10000
def dummyFields : List String := ["spec", "data"]

/-- The object that `foov1Template` unmarshals to. -/
def foov1Template : Obj :=
  [("apiVersion", Value.str "stable.example.com/v1".toList),
   ("kind", Value.str "Foo".toList),
   ("metadata", Value.obj [("name", Value.str "template".toList)]),
   ("spec", Value.obj [("data", Value.str "abc123,d4,".toList)])]

/-- The object that `endpointsTemplate` unmarshals to. -/
def endpointsTemplate : Obj :=
  [("apiVersion", Value.str "v1".toList),
   ("kind", Value.str "Endpoints".toList),
   ("metadata", Value.obj [("name", Value.str "template".toList)])]

/-! ## Scenario resolution -/

/-- Whether the text begins with the given bytes. -/
def startsWith : List Char → List Char → Bool
  | _, [] => true
  | [], _ :: _ => false
  | c :: cs, p :: ps => c == p && startsWith cs ps

/-- Whether `sub` occurs in the text at some position. -/
def containsAt : List Char → List Char → Bool
  | [], sub => sub.isEmpty
  | c :: cs, sub => startsWith (c :: cs) sub || containsAt cs sub

/-- The call `strings.Contains(s, substr)`. -/
def Contains (s substr : String) : Bool := containsAt s.toList substr.toList

/-- The function `getGVR`. -/
def getGVR (name : String) : GroupVersionResource :=
  if Contains name "CR" then foov1GVR
  else if Contains name "Endpoints" && Contains name "Dynamic" then endpointsGVR
  else notfoundGVR

/-- The function `getNamespace`. -/
def getNamespace (name : String) : String :=
  if Contains name "LargeData" then largeDataNamespace
  else if Contains name "LargeMetadata" then largeMetadataNamespace
  else emptyNamespace

/-- The function `getTemplate`; `Except.error` is a panic of `mustIncreaseObjectSize`. -/
def getTemplate (name : String) (rnd : Nat → Nat) : Except String Obj :=
  let template := if Contains name "CR" then foov1Template else endpointsTemplate
  if Contains name "LargeData" then
    mustIncreaseObjectSize template largeDataSize dummyFields rnd
  else Except.ok template

/-! ## Remote calls -/

/-- An error of the API machinery, reduced to what `reasonAndCodeForError` reads from
it: the status reason and the HTTP status code.  An error that carries no status has
the reason `""` (unknown) and the code `0`. -/
structure APIError where
  Reason : String
  Code : Nat
deriving DecidableEq, Repr

/-- The table `knownReasons` of the apimachinery package `errors`. -/
def knownReasons : List String :=
  ["Unauthorized", "Forbidden", "NotFound", "AlreadyExists", "Conflict", "Gone",
   "Invalid", "ServerTimeout", "Timeout", "TooManyRequests", "BadRequest",
   "MethodNotAllowed", "NotAcceptable", "RequestEntityTooLarge", "UnsupportedMediaType",
   "InternalError", "Expired", "ServiceUnavailable"]

/-- The test `errors.IsNotFound(err)`: the reason is `NotFound`, or the reason is none
of the known ones and the status code is 404. -/
def IsNotFound (err : APIError) : Bool :=
  err.Reason == "NotFound" || (!knownReasons.contains err.Reason && err.Code == 404)

/-- How a function ends: it returns, a `panic(err)` with an API error unwinds it, or the
Go runtime stops it with a message (a runtime panic or a fatal error). -/
inductive Completion (ρ : Type) where
  | returned (result : ρ)
  | panicked (err : APIError)
  | aborted (msg : String)
deriving DecidableEq, Repr

/-- Conversion of a value to `int32`, as the counter of a `sync.WaitGroup` is read. -/
def wrapInt32 (x : Int) : Int := (x + 2 ^ 31) % 2 ^ 32 - 2 ^ 31

/-- The call `wg.Add(delta)` of the standard library on a group without waiters: the new
value of the 32-bit counter, or the panic raised when that value is negative. -/
def wgAdd (counter delta : Int) : Except String Int :=
  let v := wrapInt32 (counter + delta)
  if v < 0 then Except.error "sync: negative WaitGroup counter" else Except.ok v

/-! ### Object names: `fmt.Sprintf("%d-%d", time.Now().Nanosecond(), i)` -/

/-- The verb `%d` on a natural number: its decimal digits, most significant first. -/
def fmtNat (n : Nat) : List Char :=
  if n = 0 then ['0'] else ((Nat.digits 10 n).map Nat.digitChar).reverse

/-- The verb `%d` on an `int`. -/
def fmtInt (x : Int) : List Char :=
  if x < 0 then '-' :: fmtNat x.natAbs else fmtNat x.natAbs

/-- The name `Create(i)` gives the object when `time.Now().Nanosecond()` is
`nanosecond`. -/
def createName (nanosecond : Int) (i : Int) : List Char :=
  fmtInt nanosecond ++ '-' :: fmtInt i

/-- The names of the `count` creates `benchmarkCreateThroughput` starts, for indices
`0, ..., count - 1`, when the `i`-th of them reads the nanosecond `nanos i`. -/
def throughputNames (count : Nat) (nanos : Nat → Int) : List (List Char) :=
  (List.range count).map (fun i => createName (nanos i) (i : Int))

/-! ### `BenchmarkClient` and `ensureObjectCount` -/

/-- The methods of the interface `BenchmarkClient` that the population check uses, as
functions on the state `σ` of the remote collection.  `Count` yields `len(l.Items)`. -/
structure BenchmarkClient (σ : Type) where
  Create : Int → σ → Option APIError × σ
  Count : σ → Except APIError Nat × σ
  DeleteCollection : σ → Option APIError × σ

/-- A call issued through a `BenchmarkClient`. -/
inductive ClientCall where
  | count
  | create (i : Int)
  | deleteCollection
deriving DecidableEq, Repr

/-- The error values `ensureObjectCount` returns. -/
inductive EnsureError where
  | failedToCheckListSize (cause : APIError)
  | tooManyItems (want got : Int)
deriving DecidableEq, Repr

/-- The end of a run: how it completed, the remote state it left and the calls it
issued, in order. -/
structure Run (ρ σ κ : Type) where
  completion : Completion ρ
  state : σ
  trace : List κ

/-- The goroutines `go func() { client.Create(idx); wg.Done() }()` executed one after
the other in the given order, from the value `counter` of the wait group; a failing
`Create` panics, and so does a `wg.Done()` that makes the counter negative.  The result
is the value of the counter when every goroutine has finished. -/
def runCreates {σ : Type} (client : BenchmarkClient σ) :
    List Int → σ → List ClientCall → Int → Completion Int × σ × List ClientCall
  | [], s, tr, counter => (Completion.returned counter, s, tr)
  | i :: rest, s, tr, counter =>
    match client.Create i s with
    | (some err, s') => (Completion.panicked err, s', tr ++ [ClientCall.create i])
    | (none, s') =>
      match wgAdd counter (-1) with
      | Except.error msg => (Completion.aborted msg, s', tr ++ [ClientCall.create i])
      | Except.ok counter' =>
        runCreates client rest s' (tr ++ [ClientCall.create i]) counter'

/-- The function `ensureObjectCount(client, listSize)`.  The remote executes the
concurrent `Create` calls atomically in some order; `sched` is the order the scheduler
picks for the goroutines started for `idx = 0, ..., remaining - 1`, which run to their
end before `wg.Wait()` is reached.  `wg.Add(remaining)` precedes the first goroutine,
and `wg.Wait()` returns when the counter is zero and blocks for ever otherwise.  Because
`0 ≤ num < listSize` the subtraction `listSize - num` cannot overflow. -/
def ensureObjectCount {σ : Type} (client : BenchmarkClient σ) (listSize : Int)
    (sched : List Int → List Int) (s : σ) : Run (Option EnsureError) σ ClientCall :=
  match client.Count s with
  | (Except.error err, s1) =>
    ⟨Completion.returned (some (EnsureError.failedToCheckListSize err)), s1,
      [ClientCall.count]⟩
  | (Except.ok num, s1) =>
    if (num : Int) < listSize then
      let remaining := listSize - (num : Int)
      match wgAdd 0 remaining with
      | Except.error msg => ⟨Completion.aborted msg, s1, [ClientCall.count]⟩
      | Except.ok counter =>
        let started := (List.range remaining.toNat).map Int.ofNat
        match runCreates client (sched started) s1 [ClientCall.count] counter with
        | (Completion.panicked err, s2, tr) => ⟨Completion.panicked err, s2, tr⟩
        | (Completion.aborted msg, s2, tr) => ⟨Completion.aborted msg, s2, tr⟩
        | (Completion.returned left, s2, tr) =>
          if left = 0 then ⟨Completion.returned none, s2, tr⟩
          else ⟨Completion.aborted "all goroutines are asleep - deadlock!", s2, tr⟩
    else if (num : Int) > listSize then
      ⟨Completion.returned (some (EnsureError.tooManyItems listSize num)), s1,
        [ClientCall.count]⟩
    else ⟨Completion.returned none, s1, [ClientCall.count]⟩

/-- The number of `Create` calls in a trace. -/
def createCalls (tr : List ClientCall) : Nat :=
  (tr.filter (fun c => match c with | ClientCall.create _ => true | _ => false)).length

/-- A collection that holds `n` objects, accepts every `Create` and has no other
writer. -/
def counterClient : BenchmarkClient Nat where
  Create := fun _ n => (none, n + 1)
  Count := fun n => (Except.ok n, n)
  DeleteCollection := fun _ => (none, 0)

/-! ### `setupNamespace` -/

/-- The namespace client `mustNewClientset().CoreV1().Namespaces()`. -/
structure NamespaceClient (σ : Type) where
  Get : String → σ → Option APIError × σ
  Create : String → σ → Option APIError × σ

/-- A step of `setupNamespace` visible from outside. -/
inductive NamespaceCall where
  | get (name : String)
  | create (name : String)
  | sleep (seconds : Nat)
deriving DecidableEq, Repr

/-- The function `setupNamespace(name)`. -/
def setupNamespace {σ : Type} (c : NamespaceClient σ) (name : String) (s : σ) :
    Run Unit σ NamespaceCall :=
  match c.Get name s with
  | (none, s1) => ⟨Completion.returned (), s1, [NamespaceCall.get name]⟩
  | (some err, s1) =>
    if IsNotFound err then
      match c.Create name s1 with
      | (some err', s2) =>
        ⟨Completion.panicked err', s2, [NamespaceCall.get name, NamespaceCall.create name]⟩
      | (none, s2) =>
        ⟨Completion.returned (), s2,
          [NamespaceCall.get name, NamespaceCall.create name, NamespaceCall.sleep 10]⟩
    else ⟨Completion.panicked err, s1, [NamespaceCall.get name]⟩

/-- The number of remote `Create` calls in a trace. -/
def namespaceCreates (tr : List NamespaceCall) : Nat :=
  (tr.filter (fun c => match c with | NamespaceCall.create _ => true | _ => false)).length

/-- A remote that stores the names of its namespaces: it answers 404 `NotFound` to the
`Get` of a missing name and 409 `AlreadyExists` to the `Create` of a stored one. -/
def namespaceStore : NamespaceClient (List String) where
  Get := fun name s => (if name ∈ s then none else some ⟨"NotFound", 404⟩, s)
  Create := fun name s =>
    if name ∈ s then (some ⟨"AlreadyExists", 409⟩, s) else (none, name :: s)

/-- A remote without namespaces whose `Get` answers 404 with no status reason. -/
def bareNotFoundStore : NamespaceClient (List String) where
  Get := fun name s => (if name ∈ s then none else some ⟨"", 404⟩, s)
  Create := fun name s =>
    if name ∈ s then (some ⟨"AlreadyExists", 409⟩, s) else (none, name :: s)

/-! ### `setupValidation` and `mustHaveValidation` -/

/-- An entry of `crd.Spec.Versions`; `α` is the type `CustomResourceValidation`. -/
structure CRDVersion (α : Type) where
  Name : String
  Schema : Option α
deriving DecidableEq, Repr

/-- A `CustomResourceDefinition`, reduced to `Spec.Versions`. -/
structure CRD (α : Type) where
  Versions : List (CRDVersion α)
deriving DecidableEq, Repr

/-- The client `clientset.ApiextensionsV1().CustomResourceDefinitions()`. -/
structure CRDClient (α σ : Type) where
  Get : String → σ → Except APIError (CRD α) × σ
  Update : CRD α → σ → Option APIError × σ

/-- A step of `mustHaveValidation` visible from outside. -/
inductive CRDCall (α : Type) where
  | get (name : String)
  | update (crd : CRD α)
  | sleep (seconds : Nat)
deriving DecidableEq, Repr

/-- The loop `for i, version := range crd.Spec.Versions { ... }`; `deepEqual` is
`apiequality.Semantic.DeepEqual`. -/
def setSchemas {α : Type} (deepEqual : Option α → Option α → Bool) (validation : Option α)
    (crd : CRD α) : CRD α :=
  ⟨crd.Versions.map (fun version =>
    if version.Name == "v1" && !deepEqual validation version.Schema then
      ⟨version.Name, validation⟩
    else version)⟩

/-- The function `mustHaveValidation(client, name, validation)`. -/
def mustHaveValidation {α σ : Type} (deepEqual : Option α → Option α → Bool)
    (client : CRDClient α σ) (name : String) (validation : Option α) (s : σ) :
    Run Unit σ (CRDCall α) :=
  match client.Get name s with
  | (Except.error err, s1) => ⟨Completion.panicked err, s1, [CRDCall.get name]⟩
  | (Except.ok crd, s1) =>
    let crd' := setSchemas deepEqual validation crd
    match client.Update crd' s1 with
    | (some err, s2) =>
      ⟨Completion.panicked err, s2, [CRDCall.get name, CRDCall.update crd']⟩
    | (none, s2) =>
      ⟨Completion.returned (), s2,
        [CRDCall.get name, CRDCall.update crd', CRDCall.sleep 5]⟩

/-- The function `setupValidation(enable)`; `v` is what `validationSchema` unmarshals
to. -/
def setupValidation {α σ : Type} (deepEqual : Option α → Option α → Bool)
    (client : CRDClient α σ) (v : α) (enable : Bool) (s : σ) : Run Unit σ (CRDCall α) :=
  if enable then mustHaveValidation deepEqual client fooName (some v) s
  else mustHaveValidation deepEqual client fooName none s

/-- Whether a step is an `Update` call or a settle wait. -/
def isUpdateOrSleep {α : Type} : CRDCall α → Bool
  | CRDCall.get _ => false
  | CRDCall.update _ => true
  | CRDCall.sleep _ => true

/-- A remote that stores one definition and returns it for every name. -/
def crdStore : CRDClient Nat (CRD Nat) where
  Get := fun _ s => (Except.ok s, s)
  Update := fun crd _ => (none, crd)

/-- A stored definition whose version `v1` carries the schema `7`. -/
def sampleCRD : CRD Nat := ⟨[⟨"v1", some 7⟩]⟩

/-! # Theorems -/

/-! ## The generator loop -/

theorem writeRunes_length (alphabet : List Char) (rnd : Nat → Nat) (n : Nat) (st : GenState) :
    (writeRunes alphabet rnd n st).sb.length = st.sb.length + n := by
  induction n generalizing st with
  | zero => rfl
  | succ n ih => simp [writeRunes, ih]; omega

/-- What one pass of the loop does to the length of the buffer: it grows by the clamped
chunk length plus one, and the remaining budget shrinks by the same amount without
wrapping. -/
theorem loopStep_some_length {size : Int} {rnd : Nat → Nat} {st st' : GenState}
    (h : loopStep size rnd st = some st') :
    ∃ p : Nat, 2 ≤ p ∧ p ≤ 20 ∧ st'.sb.length = st.sb.length + p + 1 ∧
      wrapInt (size - (st.sb.length : Int) - 1)
        = wrapInt (size - (st'.sb.length : Int) - 1) + p + 1 ∧
      -1 ≤ wrapInt (size - (st'.sb.length : Int) - 1) := by
  unfold loopStep at h
  simp only at h
  split at h
  · exact absurd h (by simp)
  · rename_i hM
    have hst := (Option.some.inj h).symm
    clear h
    generalize hMdef : wrapInt (size - (st.sb.length : Int) - 1) = M at hM hst
    generalize hd : ((rnd st.k % 19 : Nat) : Int) + 2 = d at hst
    have hd2 : 2 ≤ d ∧ d ≤ 20 := by
      have := Nat.mod_lt (rnd st.k) (show 0 < 19 by decide)
      omega
    generalize hpl : (if d > M then M else d) = part at hst
    have hpart : 2 ≤ part ∧ part ≤ 20 ∧ part ≤ M := by
      split at hpl <;> omega
    have htd : Int.tdiv part 2 = part / 2 :=
      Int.tdiv_eq_ediv (by omega) (by decide)
    rw [htd] at hst
    have hlen : st'.sb.length
        = st.sb.length + (part / 2).toNat + (part - part / 2).toNat + 1 := by
      rw [hst]
      simp [writeRunes_length]
    refine ⟨part.toNat, by omega, by omega, by omega, ?_, ?_⟩
    · rw [hlen]
      unfold wrapInt at hMdef ⊢
      push_cast
      omega
    · rw [hlen]
      unfold wrapInt at hMdef ⊢
      push_cast
      omega

theorem loopStep_none_iff (size : Int) (rnd : Nat → Nat) (st : GenState) :
    loopStep size rnd st = none ↔ wrapInt (size - (st.sb.length : Int) - 1) < 2 := by
  unfold loopStep
  simp only
  split <;> simp [*]

theorem genLoop_of_none {size : Int} {rnd : Nat → Nat} {st : GenState}
    (h : loopStep size rnd st = none) : genLoop size rnd st = st := by
  rw [genLoop]
  split
  · rfl
  · simp_all

theorem genLoop_of_some {size : Int} {rnd : Nat → Nat} {st st' : GenState}
    (h : loopStep size rnd st = some st') : genLoop size rnd st = genLoop size rnd st' := by
  conv_lhs => rw [genLoop]
  split
  · simp_all
  · rename_i st'' h'
    rw [h] at h'
    cases h'
    rfl

/-- Induction along the run of the loop: a property that holds on entry and that every
pass preserves holds at the `break`, where the loop condition has failed. -/
theorem genLoop_invariant (size : Int) (rnd : Nat → Nat) (P : GenState → Prop)
    (hstep : ∀ st st', P st → loopStep size rnd st = some st' → P st') :
    ∀ (m : Nat) (st : GenState), (wrapInt (size - (st.sb.length : Int) - 1)).toNat ≤ m →
      P st → P (genLoop size rnd st) ∧ loopStep size rnd (genLoop size rnd st) = none := by
  intro m
  induction m with
  | zero =>
    intro st hm h0
    have hn : loopStep size rnd st = none := by
      rw [loopStep_none_iff]; omega
    rw [genLoop_of_none hn]
    exact ⟨h0, hn⟩
  | succ m ih =>
    intro st hm h0
    cases hs : loopStep size rnd st with
    | none =>
      rw [genLoop_of_none hs]
      exact ⟨h0, hs⟩
    | some st' =>
      rw [genLoop_of_some hs]
      obtain ⟨p, hp2, _, _, hw, hlo⟩ := loopStep_some_length hs
      exact ih st' (by omega) (hstep st st' h0 hs)

theorem genLoop_preserves (size : Int) (rnd : Nat → Nat) (P : GenState → Prop)
    (hstep : ∀ st st', P st → loopStep size rnd st = some st' → P st')
    (st : GenState) (h0 : P st) : P (genLoop size rnd st) :=
  (genLoop_invariant size rnd P hstep _ st (Nat.le_refl _) h0).1

theorem genLoop_stops (size : Int) (rnd : Nat → Nat) (st : GenState) :
    loopStep size rnd (genLoop size rnd st) = none :=
  (genLoop_invariant size rnd (fun _ => True) (fun _ _ _ _ => trivial) _ st
    (Nat.le_refl _) trivial).2

/-- The loop reaches its final state after finitely many passes. -/
theorem genLoop_reached (size : Int) (rnd : Nat → Nat) :
    ∀ (m : Nat) (st : GenState), (wrapInt (size - (st.sb.length : Int) - 1)).toNat ≤ m →
      ∃ n, stepN size rnd n st = some (genLoop size rnd st) := by
  intro m
  induction m with
  | zero =>
    intro st hm
    have hn : loopStep size rnd st = none := by
      rw [loopStep_none_iff]; omega
    exact ⟨0, by rw [genLoop_of_none hn]; rfl⟩
  | succ m ih =>
    intro st hm
    cases hs : loopStep size rnd st with
    | none => exact ⟨0, by rw [genLoop_of_none hs]; rfl⟩
    | some st' =>
      obtain ⟨p, hp2, _, _, hw, hlo⟩ := loopStep_some_length hs
      obtain ⟨n, hn⟩ := ih st' (by omega)
      exact ⟨n + 1, by rw [genLoop_of_some hs]; simp [stepN, hs, hn]⟩

/-- A property that every pass preserves holds after any number of passes. -/
theorem stepN_preserves (size : Int) (rnd : Nat → Nat) (P : GenState → Prop)
    (hstep : ∀ st st', P st → loopStep size rnd st = some st' → P st') :
    ∀ (n : Nat) (st st' : GenState), P st → stepN size rnd n st = some st' → P st' := by
  intro n
  induction n with
  | zero =>
    intro st st' h0 h
    simp [stepN] at h
    exact h ▸ h0
  | succ n ih =>
    intro st st' h0 h
    cases hs : loopStep size rnd st with
    | none => simp [stepN, hs] at h
    | some st1 =>
      simp [stepN, hs] at h
      exact ih st1 st' (hstep st st1 h0 hs) h

/-- While the buffer is no longer than a non-negative `size`, a pass keeps it so. -/
theorem loopStep_le_size {size : Int} (hhi : size < 2 ^ 63) {rnd : Nat → Nat}
    {st st' : GenState} (hle : (st.sb.length : Int) ≤ size)
    (h : loopStep size rnd st = some st') : (st'.sb.length : Int) ≤ size := by
  obtain ⟨p, hp2, hp20, hlen, hw, hlo⟩ := loopStep_some_length h
  rw [hlen] at hlo hw ⊢
  unfold wrapInt at hw hlo
  push_cast at hw hlo ⊢
  omega

/-- The buffer never exceeds a non-negative `size`, and at the `break` it is at most two
bytes short of it. -/
theorem generatedData_length_bounds {size : Int} (hlo : 0 ≤ size) (hhi : size < 2 ^ 63)
    (rnd : Nat → Nat) :
    size - 2 ≤ ((generatedData size rnd).length : Int) ∧
      ((generatedData size rnd).length : Int) ≤ size := by
  have hle : ((genLoop size rnd ⟨[], 0⟩).sb.length : Int) ≤ size :=
    genLoop_preserves size rnd (fun st => (st.sb.length : Int) ≤ size)
      (fun st st' h0 hs => loopStep_le_size hhi h0 hs) ⟨[], 0⟩ (by simpa using hlo)
  have hstop := genLoop_stops size rnd ⟨[], 0⟩
  rw [loopStep_none_iff] at hstop
  unfold generatedData
  refine ⟨?_, hle⟩
  unfold wrapInt at hstop
  omega

/-- Below three bytes (and above the least `int`) the loop leaves at once. -/
theorem generatedData_small {size : Int} (hlo : -2 ^ 63 < size) (hhi : size < 3)
    (rnd : Nat → Nat) : generatedData size rnd = [] := by
  have hn : loopStep size rnd ⟨[], 0⟩ = none := by
    rw [loopStep_none_iff]
    unfold wrapInt
    simp only [List.length_nil]
    push_cast
    omega
  unfold generatedData
  rw [genLoop_of_none hn]

theorem generatedData_def (size : Int) (rnd : Nat → Nat) :
    generatedData size rnd = (genLoop size rnd ⟨[], 0⟩).sb := rfl

/-- The final buffer extends every buffer the loop has passed through. -/
theorem genLoop_length_ge (size : Int) (rnd : Nat → Nat) (st : GenState) :
    st.sb.length ≤ (genLoop size rnd st).sb.length :=
  genLoop_preserves size rnd (fun s => st.sb.length ≤ s.sb.length)
    (fun s s' h0 hs => by
      obtain ⟨p, _, _, hlen, _, _⟩ := loopStep_some_length hs
      show st.sb.length ≤ s'.sb.length
      have h0' : st.sb.length ≤ s.sb.length := h0
      omega)
    st (Nat.le_refl _)

/-- C1, as amended: for every target size `S ≥ 2` (a Go `int`) and every sequence of
random draws the filler text has length `L` with `S - 2 ≤ L ≤ S + 19` when `S ≥ 3`, and
is empty when `S = 2`. -/
theorem filler_length_within (S : Int) (hS : 2 ≤ S) (hInt : S < 2 ^ 63) (rnd : Nat → Nat) :
    (S = 2 → (generatedData S rnd).length = 0) ∧
      (3 ≤ S → S - 2 ≤ ((generatedData S rnd).length : Int)) ∧
      ((generatedData S rnd).length : Int) ≤ S + 19 := by
  have hb := generatedData_length_bounds (by omega : (0 : Int) ≤ S) hInt rnd
  refine ⟨?_, fun _ => hb.1, by omega⟩
  intro h2
  rw [generatedData_small (by omega) (by omega) rnd]
  rfl

theorem filler_length_within_witness :
    ((5 : Int) = 2 → (generatedData 5 (fun _ => 0)).length = 0) ∧
      ((3 : Int) ≤ 5 → (5 : Int) - 2 ≤ ((generatedData 5 (fun _ => 0)).length : Int)) ∧
      ((generatedData 5 (fun _ => 0)).length : Int) ≤ 5 + 19 :=
  filler_length_within 5 (by decide) (by decide) (fun _ => 0)

theorem generatedData_five : generatedData 5 (fun _ => 0) = ['a', '0', ','] := by
  have h1 : loopStep 5 (fun _ => 0) ⟨[], 0⟩ = some ⟨['a', '0', ','], 3⟩ := by decide
  have h2 : loopStep 5 (fun _ => 0) ⟨['a', '0', ','], 3⟩ = none := by decide
  unfold generatedData
  rw [genLoop_of_some h1, genLoop_of_none h2]

theorem generatedData_two : generatedData 2 (fun _ => 0) = [] := by
  have h1 : loopStep 2 (fun _ => 0) ⟨[], 0⟩ = none := by decide
  unfold generatedData
  rw [genLoop_of_none h1]

/-- C1 fails as stated: at `S = 2` the filler is empty, and at `S = 5` with all draws
`0` it is `"a0,"` of length `3 = S - 2`; both lengths are below `S - 1`. -/
theorem filler_length_counterexample :
    ¬ ((2 : Int) - 1 ≤ ((generatedData 2 (fun _ => 0)).length : Int)) ∧
      ¬ ((5 : Int) - 1 ≤ ((generatedData 5 (fun _ => 0)).length : Int)) := by
  rw [generatedData_two, generatedData_five]
  decide

/-- C10, as amended: for every size `S` with `-2^63 < S < 2^63` and every sequence of
random draws the loop terminates (it reaches its final state, where the loop condition
fails, after finitely many passes), the buffer length never exceeds `S` after any number
of passes when `S ≥ 0`, and the final length `L` satisfies `S - 2 ≤ L ≤ S` when `S ≥ 3`
and `L = 0` when `S < 3`. -/
theorem loop_never_overshoots (S : Int) (hlo : -2 ^ 63 < S) (hhi : S < 2 ^ 63)
    (rnd : Nat → Nat) :
    (∃ n, stepN S rnd n ⟨[], 0⟩ = some (genLoop S rnd ⟨[], 0⟩) ∧
        loopStep S rnd (genLoop S rnd ⟨[], 0⟩) = none) ∧
      (0 ≤ S → ∀ n st, stepN S rnd n ⟨[], 0⟩ = some st → (st.sb.length : Int) ≤ S) ∧
      (3 ≤ S → S - 2 ≤ ((generatedData S rnd).length : Int) ∧
        ((generatedData S rnd).length : Int) ≤ S) ∧
      (S < 3 → (generatedData S rnd).length = 0) := by
  refine ⟨?_, ?_, ?_, ?_⟩
  · obtain ⟨n, hn⟩ := genLoop_reached S rnd _ ⟨[], 0⟩ (Nat.le_refl _)
    exact ⟨n, hn, genLoop_stops S rnd ⟨[], 0⟩⟩
  · intro h0 n st hst
    exact stepN_preserves S rnd (fun st => (st.sb.length : Int) ≤ S)
      (fun st st' hle hs => loopStep_le_size hhi hle hs) n ⟨[], 0⟩ st (by simpa using h0) hst
  · intro h3
    exact generatedData_length_bounds (by omega) hhi rnd
  · intro h3
    rw [generatedData_small hlo h3 rnd]
    rfl

theorem loop_never_overshoots_witness :
    (∃ n, stepN 5 (fun _ => 0) n ⟨[], 0⟩ = some (genLoop 5 (fun _ => 0) ⟨[], 0⟩) ∧
        loopStep 5 (fun _ => 0) (genLoop 5 (fun _ => 0) ⟨[], 0⟩) = none) ∧
      ((0 : Int) ≤ 5 → ∀ n st, stepN 5 (fun _ => 0) n ⟨[], 0⟩ = some st →
        (st.sb.length : Int) ≤ 5) ∧
      ((3 : Int) ≤ 5 → (5 : Int) - 2 ≤ ((generatedData 5 (fun _ => 0)).length : Int) ∧
        ((generatedData 5 (fun _ => 0)).length : Int) ≤ 5) ∧
      ((5 : Int) < 3 → (generatedData 5 (fun _ => 0)).length = 0) :=
  loop_never_overshoots 5 (by decide) (by decide) (fun _ => 0)

/-- C10 fails as stated at the least `int`: for `S = -2^63`, which is below 3, the
budget `S - 0 - 1` wraps around to `2^63 - 1`, the loop body runs and the final text is
not empty. -/
theorem loop_never_overshoots_counterexample :
    IsGoInt (-2 ^ 63) ∧ (-2 ^ 63 : Int) < 3 ∧
      (generatedData (-2 ^ 63) (fun _ => 0)).length ≠ 0 := by
  refine ⟨by decide, by decide, ?_⟩
  have h1 : loopStep (-2 ^ 63) (fun _ => 0) ⟨[], 0⟩ = some ⟨['a', '0', ','], 3⟩ := by
    decide
  have h2 : 3 ≤ (genLoop (-2 ^ 63) (fun _ => 0) ⟨['a', '0', ','], 3⟩).sb.length :=
    genLoop_length_ge (-2 ^ 63) (fun _ => 0) ⟨['a', '0', ','], 3⟩
  rw [generatedData_def, genLoop_of_some h1]
  exact Nat.ne_of_gt (Nat.lt_of_lt_of_le (by decide) h2)

/-! ## The generated text and the validation rule -/

/-- No text matched by one of these expressions is empty. -/
theorem Matches.ne_nil {r : Regex} {x : List Char} (h : Matches r x) : x ≠ [] := by
  induction h with
  | range _ _ => simp
  | lit => simp
  | seq _ _ ihx _ => simp [ihx]
  | plusOne _ ih => exact ih
  | plusMore _ _ ihx _ => simp [ihx]

/-- A repetition followed by one more match is a repetition. -/
theorem Matches.plus_append {r : Regex} {x y : List Char}
    (hx : Matches (Regex.plus r) x) (hy : Matches r y) : Matches (Regex.plus r) (x ++ y) := by
  generalize hq : Regex.plus r = q at hx
  induction hx with
  | range _ _ => cases hq
  | lit => cases hq
  | seq _ _ _ _ => cases hq
  | plusOne h _ =>
    cases hq
    exact Matches.plusMore h (Matches.plusOne hy)
  | plusMore h _ _ ih =>
    cases hq
    rw [List.append_assoc]
    exact Matches.plusMore h (ih rfl)

theorem letters_in_range :
    ∀ i, i < 26 → 'a' ≤ letters.getD i ',' ∧ letters.getD i ',' ≤ 'z' := by
  decide

theorem digits_in_range :
    ∀ i, i < 10 → '0' ≤ digits.getD i ',' ∧ digits.getD i ',' ≤ '9' := by
  decide

/-- One or more runes drawn from an alphabet that lies in `[lo-hi]` form a match of
`[lo-hi]+` appended to the buffer. -/
theorem writeRunes_matches (alphabet : List Char) (lo hi : Char) (rnd : Nat → Nat)
    (hpos : 0 < alphabet.length)
    (hin : ∀ i, i < alphabet.length → lo ≤ alphabet.getD i ',' ∧ alphabet.getD i ',' ≤ hi) :
    ∀ (n : Nat) (st : GenState), ∃ w,
      (writeRunes alphabet rnd (n + 1) st).sb = st.sb ++ w ∧
        Matches (Regex.plus (Regex.range lo hi)) w := by
  intro n
  induction n with
  | zero =>
    intro st
    have hc := hin _ (Nat.mod_lt (rnd st.k) hpos)
    exact ⟨_, rfl, Matches.plusOne (Matches.range hc.1 hc.2)⟩
  | succ n ih =>
    intro st
    have hc := hin _ (Nat.mod_lt (rnd st.k) hpos)
    obtain ⟨w, hw, hm⟩ :=
      ih ⟨st.sb ++ [alphabet.getD (rnd st.k % alphabet.length) ','], st.k + 1⟩
    refine ⟨[alphabet.getD (rnd st.k % alphabet.length) ','] ++ w, ?_, ?_⟩
    · rw [writeRunes, hw, List.append_assoc]
    · exact Matches.plusMore (Matches.range hc.1 hc.2) hm

/-- A non-empty text of characters in `[lo-hi]` matches `[lo-hi]+`. -/
theorem matches_plus_range (lo hi : Char) :
    ∀ (c : Char) (w : List Char), (∀ x ∈ c :: w, lo ≤ x ∧ x ≤ hi) →
      Matches (Regex.plus (Regex.range lo hi)) (c :: w) := by
  intro c w
  induction w generalizing c with
  | nil =>
    intro h
    have hc := h c (List.mem_cons_self c [])
    exact Matches.plusOne (Matches.range hc.1 hc.2)
  | cons d w ih =>
    intro h
    have hc := h c (List.mem_cons_self c _)
    exact @Matches.plusMore (Regex.range lo hi) [c] (d :: w) (Matches.range hc.1 hc.2)
      (ih d (fun x hx => h x (List.mem_cons_of_mem c hx)))

/-- The value `"abc123,d4,"` that `foov1Template` carries at `spec.data` satisfies the
validation rule. -/
theorem template_data_matches : Matches validationRegex "abc123,d4,".toList := by
  have hl : ∀ (c : Char) (w : List Char), (∀ x ∈ c :: w, 'a' ≤ x ∧ x ≤ 'z') →
      Matches (Regex.plus (Regex.range 'a' 'z')) (c :: w) := matches_plus_range 'a' 'z'
  have hd : ∀ (c : Char) (w : List Char), (∀ x ∈ c :: w, '0' ≤ x ∧ x ≤ '9') →
      Matches (Regex.plus (Regex.range '0' '9')) (c :: w) := matches_plus_range '0' '9'
  have c1 : Matches chunkRegex (['a', 'b', 'c'] ++ (['1', '2', '3'] ++ [','])) :=
    Matches.seq (hl 'a' ['b', 'c'] (by decide))
      (Matches.seq (hd '1' ['2', '3'] (by decide)) Matches.lit)
  have c2 : Matches chunkRegex (['d'] ++ (['4'] ++ [','])) :=
    Matches.seq (hl 'd' [] (by decide)) (Matches.seq (hd '4' [] (by decide)) Matches.lit)
  exact Matches.plusMore c1 (Matches.plusOne c2)

/-- Every pass of the loop appends one chunk `[a-z]+[0-9]+,`. -/
theorem loopStep_appends_chunk {size : Int} {rnd : Nat → Nat} {st st' : GenState}
    (h : loopStep size rnd st = some st') :
    ∃ chunk, st'.sb = st.sb ++ chunk ∧ Matches chunkRegex chunk := by
  unfold loopStep at h
  simp only at h
  split at h
  · exact absurd h (by simp)
  · rename_i hM
    have hst := (Option.some.inj h).symm
    clear h
    generalize hMdef : wrapInt (size - (st.sb.length : Int) - 1) = M at hM hst
    generalize hd : ((rnd st.k % 19 : Nat) : Int) + 2 = d at hst
    have hd2 : 2 ≤ d ∧ d ≤ 20 := by
      have := Nat.mod_lt (rnd st.k) (show 0 < 19 by decide)
      omega
    generalize hpl : (if d > M then M else d) = part at hst
    have hpart : 2 ≤ part ∧ part ≤ 20 ∧ part ≤ M := by
      split at hpl <;> omega
    have htd : Int.tdiv part 2 = part / 2 :=
      Int.tdiv_eq_ediv (by omega) (by decide)
    rw [htd] at hst
    obtain ⟨nl, hnl⟩ : ∃ nl, (part / 2).toNat = nl + 1 := ⟨(part / 2).toNat - 1, by omega⟩
    obtain ⟨nd, hnd⟩ : ∃ nd, (part - part / 2).toNat = nd + 1 :=
      ⟨(part - part / 2).toNat - 1, by omega⟩
    rw [hnl, hnd] at hst
    obtain ⟨w1, hw1, hm1⟩ := writeRunes_matches letters 'a' 'z' rnd (by decide)
      letters_in_range nl ⟨st.sb, st.k + 1⟩
    obtain ⟨w2, hw2, hm2⟩ := writeRunes_matches digits '0' '9' rnd (by decide)
      digits_in_range nd (writeRunes letters rnd (nl + 1) ⟨st.sb, st.k + 1⟩)
    refine ⟨w1 ++ (w2 ++ [',']), ?_, Matches.seq hm1 (Matches.seq hm2 Matches.lit)⟩
    rw [hst]
    simp only [hw2, hw1, List.append_assoc]

/-- Once the loop body has run, the buffer matches `([a-z]+[0-9]+,)+` for the rest of
the run. -/
theorem genLoop_matches {size : Int} {rnd : Nat → Nat} {st : GenState}
    (h : Matches validationRegex st.sb) : Matches validationRegex (genLoop size rnd st).sb :=
  genLoop_preserves size rnd (fun s => Matches validationRegex s.sb)
    (fun s s' h0 hs => by
      obtain ⟨chunk, hsb, hm⟩ := loopStep_appends_chunk hs
      show Matches validationRegex s'.sb
      rw [hsb]
      exact Matches.plus_append h0 hm)
    st h

/-- C2, as amended: for every target size `S ≥ 3` (a Go `int`) and every sequence of
random draws, the filler text matches `^([a-z]+[0-9]+,)+$`: it is a non-empty
concatenation of chunks, each one or more lowercase letters, then one or more digits,
then a comma. -/
theorem filler_matches_validation (S : Int) (hS : 3 ≤ S) (hInt : S < 2 ^ 63)
    (rnd : Nat → Nat) : Matches validationRegex (generatedData S rnd) := by
  cases hs : loopStep S rnd ⟨[], 0⟩ with
  | none =>
    rw [loopStep_none_iff] at hs
    unfold wrapInt at hs
    simp only [List.length_nil] at hs
    push_cast at hs
    omega
  | some st1 =>
    obtain ⟨chunk, hsb, hm⟩ := loopStep_appends_chunk hs
    rw [generatedData_def, genLoop_of_some hs]
    apply genLoop_matches
    rw [hsb]
    exact Matches.plusOne hm

theorem filler_matches_validation_witness :
    Matches validationRegex (generatedData 5 (fun _ => 0)) :=
  filler_matches_validation 5 (by decide) (by decide) (fun _ => 0)

/-- C2 fails as stated at `S = 2`: the filler text is empty, and the empty text does not
match `^([a-z]+[0-9]+,)+$`. -/
theorem filler_matches_counterexample :
    (2 : Int) ≥ 2 ∧ ¬ Matches validationRegex (generatedData 2 (fun _ => 0)) := by
  refine ⟨by decide, ?_⟩
  rw [generatedData_two]
  intro h
  exact h.ne_nil rfl

/-! ## Scenario resolution -/

/-- C7: `getGVR` returns a descriptor for every scenario name; it is the sentinel
not-found descriptor (version `error`, resource `notfound`) exactly when the name contains
no `CR` and does not contain both `Endpoints` and `Dynamic`; otherwise it is the foos
descriptor when the name contains `CR` and the endpoints descriptor when it does not. -/
theorem getGVR_resolution (name : String) :
    (notfoundGVR.Version = "error" ∧ notfoundGVR.Resource = "notfound") ∧
      (getGVR name = notfoundGVR ↔
        (Contains name "CR" = false ∧
          ¬ (Contains name "Endpoints" = true ∧ Contains name "Dynamic" = true))) ∧
      (Contains name "CR" = true → getGVR name = foov1GVR) ∧
      (Contains name "CR" = false → getGVR name ≠ notfoundGVR →
        getGVR name = endpointsGVR) := by
  have h1 : foov1GVR ≠ notfoundGVR := by decide
  have h2 : endpointsGVR ≠ notfoundGVR := by decide
  refine ⟨⟨rfl, rfl⟩, ?_, ?_, ?_⟩
  · unfold getGVR
    cases hcr : Contains name "CR" <;> cases he : Contains name "Endpoints" <;>
      cases hd : Contains name "Dynamic" <;> simp [h1, h2]
  · intro hcr
    simp [getGVR, hcr]
  · intro hcr hne
    unfold getGVR at hne ⊢
    cases he : Contains name "Endpoints" <;> cases hd : Contains name "Dynamic" <;>
      simp_all

/-- Setting `spec.data` in either base template succeeds, and the string is then found
at that path. -/
theorem setNested_base_templates (v : List Char) :
    (∃ t, SetNestedField foov1Template (Value.str v) dummyFields = Except.ok t ∧
        NestedString t dummyFields = some v) ∧
      (∃ t, SetNestedField endpointsTemplate (Value.str v) dummyFields = Except.ok t ∧
        NestedString t dummyFields = some v) := by
  constructor
  · refine ⟨[("apiVersion", Value.str "stable.example.com/v1".toList),
      ("kind", Value.str "Foo".toList),
      ("metadata", Value.obj [("name", Value.str "template".toList)]),
      ("spec", Value.obj [("data", Value.str v)])], ?_, ?_⟩
    · simp [SetNestedField, foov1Template, dummyFields, lookupKey, setKey, Except.map]
    · simp [NestedString, dummyFields, lookupKey]
  · refine ⟨[("apiVersion", Value.str "v1".toList),
      ("kind", Value.str "Endpoints".toList),
      ("metadata", Value.obj [("name", Value.str "template".toList)]),
      ("spec", Value.obj [("data", Value.str v)])], ?_, ?_⟩
    · simp [SetNestedField, endpointsTemplate, dummyFields, lookupKey, setKey, Except.map]
    · simp [NestedString, dummyFields, lookupKey]

/-- C6: for every scenario name containing `LargeData`, `getNamespace` returns the
large-data namespace and `getTemplate` returns the base template enlarged by the payload
generator (the filler for size `largeDataSize` stored at the path `spec.data`); for every
name containing neither `LargeData` nor `LargeMetadata`, `getNamespace` returns the empty
namespace and `getTemplate` returns the base template unmodified. -/
theorem scenario_size_class (name : String) (rnd : Nat → Nat) :
    (Contains name "LargeData" = true →
        getNamespace name = largeDataNamespace ∧
        getTemplate name rnd
          = mustIncreaseObjectSize
              (if Contains name "CR" then foov1Template else endpointsTemplate)
              largeDataSize dummyFields rnd ∧
        ∃ t, getTemplate name rnd = Except.ok t ∧
          NestedString t ["spec", "data"] = some (generatedData largeDataSize rnd)) ∧
      (Contains name "LargeData" = false → Contains name "LargeMetadata" = false →
        getNamespace name = emptyNamespace ∧
        getTemplate name rnd
          = Except.ok (if Contains name "CR" then foov1Template else endpointsTemplate)) := by
  constructor
  · intro hld
    refine ⟨by simp [getNamespace, hld], by simp [getTemplate, hld], ?_⟩
    obtain ⟨⟨t1, ht1, hn1⟩, ⟨t2, ht2, hn2⟩⟩ :=
      setNested_base_templates (generatedData largeDataSize rnd)
    cases hcr : Contains name "CR"
    · exact ⟨t2, by simp [getTemplate, hld, hcr, mustIncreaseObjectSize, ht2], hn2⟩
    · exact ⟨t1, by simp [getTemplate, hld, hcr, mustIncreaseObjectSize, ht1], hn1⟩
  · intro hld hlm
    exact ⟨by simp [getNamespace, hld, hlm], by simp [getTemplate, hld]⟩

theorem scenario_size_class_witness :
    getNamespace "Benchmark_List_CR_Validation_LargeData" = largeDataNamespace ∧
      getNamespace "Benchmark_List_CR_Validation" = emptyNamespace ∧
      getTemplate "Benchmark_List_CR_Validation" (fun _ => 0) = Except.ok foov1Template :=
  ⟨((scenario_size_class "Benchmark_List_CR_Validation_LargeData" (fun _ => 0)).1
      (by decide)).1,
    ((scenario_size_class "Benchmark_List_CR_Validation" (fun _ => 0)).2
      (by decide) (by decide)).1,
    ((scenario_size_class "Benchmark_List_CR_Validation" (fun _ => 0)).2
      (by decide) (by decide)).2⟩

theorem getGVR_resolution_witness :
    getGVR "Benchmark_List_CR_Validation" = foov1GVR ∧
      getGVR "Benchmark_List_Typed_Endpoints" = notfoundGVR :=
  ⟨(getGVR_resolution "Benchmark_List_CR_Validation").2.2.1 (by decide),
    (getGVR_resolution "Benchmark_List_Typed_Endpoints").2.1.mpr (by decide)⟩

/-! ## `ensureObjectCount` -/

theorem createCalls_append (tr tr' : List ClientCall) :
    createCalls (tr ++ tr') = createCalls tr + createCalls tr' := by
  simp [createCalls]

/-- The call `wg.Add(remaining)` on a fresh group keeps a count below `2^31`. -/
theorem wgAdd_start {r : Int} (h0 : 0 ≤ r) (h1 : r < 2 ^ 31) : wgAdd 0 r = Except.ok r := by
  have hw : wrapInt32 (0 + r) = r := by unfold wrapInt32; omega
  have hn : ¬ r < 0 := by omega
  simp only [wgAdd, hw, hn, ↓reduceIte]

/-- The call `wg.Done()` on a positive counter below `2^31` takes one off. -/
theorem wgAdd_done {k : Int} (h0 : 1 ≤ k) (h1 : k < 2 ^ 31) :
    wgAdd k (-1) = Except.ok (k - 1) := by
  have hw : wrapInt32 (k + -1) = k - 1 := by unfold wrapInt32; omega
  have hn : ¬ k - 1 < 0 := by omega
  simp only [wgAdd, hw, hn, ↓reduceIte]

/-- When every `Create` succeeds and adds one object and the wait group counts at least
the goroutines that run, running the creates for a list of indices adds as many objects
as the list is long, issues that many `Create` calls and takes that many off the
counter. -/
theorem runCreates_all_succeed {σ : Type} (client : BenchmarkClient σ) (objs : σ → Nat)
    (hCreate : ∀ i t, (client.Create i t).1 = none ∧ objs (client.Create i t).2 = objs t + 1) :
    ∀ (l : List Int) (s : σ) (tr : List ClientCall) (k : Int),
      (l.length : Int) ≤ k → k < 2 ^ 31 →
      (runCreates client l s tr k).1 = Completion.returned (k - (l.length : Int)) ∧
        objs (runCreates client l s tr k).2.1 = objs s + l.length ∧
        createCalls (runCreates client l s tr k).2.2 = createCalls tr + l.length := by
  intro l
  induction l with
  | nil => intro s tr k _ _; simp [runCreates]
  | cons i rest ih =>
    intro s tr k hk hk31
    have hc := hCreate i s
    rcases hcs : client.Create i s with ⟨e, s'⟩
    rw [hcs] at hc
    simp only at hc
    obtain ⟨he, ho⟩ := hc
    subst he
    rw [List.length_cons] at hk
    push_cast at hk
    have hdone := wgAdd_done (show (1 : Int) ≤ k by omega) hk31
    obtain ⟨h1, h2, h3⟩ := ih s' (tr ++ [ClientCall.create i]) (k - 1) (by omega) (by omega)
    simp only [runCreates, hcs, hdone]
    refine ⟨?_, ?_, ?_⟩
    · rw [h1, List.length_cons]
      push_cast
      congr 1
      omega
    · rw [h2, ho, List.length_cons]; omega
    · rw [h3, createCalls_append, List.length_cons]
      simp [createCalls]
      omega

/-- C3, as amended: for every target `N` and every client that holds `c ≤ N` objects
with `N - c < 2^31`, whose `Create` always succeeds and adds exactly one object and whose
`Count` reports the number of objects (no other writer changes the state between the
calls), `ensureObjectCount(client, N)` returns no error, issues exactly `N - c` `Create`
calls, and a `Count()` made immediately afterwards returns exactly `N`, in whatever order
the scheduler runs the creates. -/
theorem ensureObjectCount_reaches_target {σ : Type} (client : BenchmarkClient σ)
    (objs : σ → Nat) (sched : List Int → List Int) (N : Int) (s : σ)
    (hsched : ∀ l, (sched l).Perm l)
    (hCount : ∀ t, (client.Count t).1 = Except.ok (objs t) ∧ objs (client.Count t).2 = objs t)
    (hCreate : ∀ i t, (client.Create i t).1 = none ∧ objs (client.Create i t).2 = objs t + 1)
    (hc : (objs s : Int) ≤ N) (hwg : N - (objs s : Int) < 2 ^ 31) :
    (ensureObjectCount client N sched s).completion = Completion.returned none ∧
      (createCalls (ensureObjectCount client N sched s).trace : Int) = N - (objs s : Int) ∧
      (client.Count (ensureObjectCount client N sched s).state).1 = Except.ok N.toNat ∧
      ((N.toNat : Nat) : Int) = N := by
  have hcnt := hCount s
  rcases hcs : client.Count s with ⟨r, s1⟩
  rw [hcs] at hcnt
  simp only at hcnt
  obtain ⟨hr, hobjs⟩ := hcnt
  subst hr
  have hN : ((N.toNat : Nat) : Int) = N := by omega
  by_cases hlt : (objs s : Int) < N
  · have hlen : (sched ((List.range (N - (objs s : Int)).toNat).map Int.ofNat)).length
        = (N - (objs s : Int)).toNat := by
      rw [(hsched _).length_eq]; simp
    have hstart := wgAdd_start (show (0 : Int) ≤ N - (objs s : Int) by omega) hwg
    have hrun := runCreates_all_succeed client objs hCreate
      (sched ((List.range (N - (objs s : Int)).toNat).map Int.ofNat)) s1 [ClientCall.count]
      (N - (objs s : Int)) (by rw [hlen]; omega) hwg
    rcases hrc : runCreates client
      (sched ((List.range (N - (objs s : Int)).toNat).map Int.ofNat)) s1
      [ClientCall.count] (N - (objs s : Int)) with ⟨e, s2, tr⟩
    rw [hrc] at hrun
    simp only at hrun
    obtain ⟨he, ho, htr⟩ := hrun
    have hleft : N - (objs s : Int)
        - ((sched ((List.range (N - (objs s : Int)).toNat).map Int.ofNat)).length : Int)
        = 0 := by
      rw [hlen]; omega
    rw [hleft] at he
    subst he
    have hres : ensureObjectCount client N sched s = ⟨Completion.returned none, s2, tr⟩ := by
      simp only [ensureObjectCount, hcs, hlt, ↓reduceIte, hstart, hrc]
    rw [hres]
    refine ⟨rfl, ?_, ?_, hN⟩
    · show (createCalls tr : Int) = N - (objs s : Int)
      rw [htr, hlen]
      simp [createCalls]
      omega
    · show (client.Count s2).1 = Except.ok N.toNat
      rw [(hCount s2).1, ho, hlen, hobjs]
      congr 1
      omega
  · have heq : (objs s : Int) = N := by omega
    have hres : ensureObjectCount client N sched s
        = ⟨Completion.returned none, s1, [ClientCall.count]⟩ := by
      simp [ensureObjectCount, hcs, hlt, heq]
    rw [hres]
    refine ⟨rfl, ?_, ?_, hN⟩
    · show (createCalls [ClientCall.count] : Int) = N - (objs s : Int)
      simp [createCalls]
      omega
    · show (client.Count s1).1 = Except.ok N.toNat
      rw [(hCount s1).1, hobjs]
      congr 1
      omega

theorem ensureObjectCount_reaches_target_witness :
    (ensureObjectCount counterClient 5 List.reverse 2).completion = Completion.returned none ∧
      (createCalls (ensureObjectCount counterClient 5 List.reverse 2).trace : Int)
        = 5 - ((2 : Nat) : Int) ∧
      (counterClient.Count (ensureObjectCount counterClient 5 List.reverse 2).state).1
        = Except.ok (5 : Int).toNat ∧
      (((5 : Int).toNat : Nat) : Int) = 5 :=
  ensureObjectCount_reaches_target counterClient id List.reverse 5 2
    (fun l => List.reverse_perm l) (fun _ => ⟨rfl, rfl⟩) (fun _ _ => ⟨rfl, rfl⟩) (by decide)
    (by decide)

/-- C3 fails as stated when `2^31` objects are missing: on an empty collection whose
`Create` always succeeds, `ensureObjectCount(client, 2^31)` stops in
`wg.Add(remaining)`, whose 32-bit counter turns negative, before any `Create` is
issued. -/
theorem ensureObjectCount_counterexample :
    (counterClient.Count 0).1 = Except.ok 0 ∧ ((0 : Nat) : Int) ≤ 2 ^ 31 ∧
      (ensureObjectCount counterClient (2 ^ 31) id 0).completion
        = Completion.aborted "sync: negative WaitGroup counter" ∧
      (ensureObjectCount counterClient (2 ^ 31) id 0).completion ≠ Completion.returned none ∧
      createCalls (ensureObjectCount counterClient (2 ^ 31) id 0).trace = 0 := by
  have hadd : wgAdd 0 (2 ^ 31 - ((0 : Nat) : Int))
      = Except.error "sync: negative WaitGroup counter" := by
    have hw : wrapInt32 (0 + (2 ^ 31 - ((0 : Nat) : Int))) = -2 ^ 31 := by decide
    have hn : (-2 ^ 31 : Int) < 0 := by decide
    simp only [wgAdd, hw, hn, ↓reduceIte]
  have hlt : ((0 : Nat) : Int) < 2 ^ 31 := by decide
  have hres : ensureObjectCount counterClient (2 ^ 31) id 0
      = ⟨Completion.aborted "sync: negative WaitGroup counter", 0, [ClientCall.count]⟩ := by
    simp only [ensureObjectCount, counterClient, hlt, ↓reduceIte, hadd]
  rw [hres]
  exact ⟨rfl, by decide, rfl, by simp, by decide⟩

/-- C4: for every client whose current count `c` is greater than the target `N`,
`ensureObjectCount(client, N)` returns an error and issues no `Create` and no
`DeleteCollection` call: the only call is the `Count`, and the remote state is the one
`Count` left. -/
theorem ensureObjectCount_too_many {σ : Type} (client : BenchmarkClient σ)
    (sched : List Int → List Int) (N : Int) (s s1 : σ) (c : Nat)
    (hCount : client.Count s = (Except.ok c, s1)) (hgt : N < (c : Int)) :
    (ensureObjectCount client N sched s).completion
        = Completion.returned (some (EnsureError.tooManyItems N c)) ∧
      (ensureObjectCount client N sched s).trace = [ClientCall.count] ∧
      (ensureObjectCount client N sched s).state = s1 := by
  have h1 : ¬ ((c : Int) < N) := by omega
  simp [ensureObjectCount, hCount, h1, hgt]

theorem ensureObjectCount_too_many_witness :
    (ensureObjectCount counterClient 3 id 7).completion
        = Completion.returned (some (EnsureError.tooManyItems 3 (7 : Nat))) ∧
      (ensureObjectCount counterClient 3 id 7).trace = [ClientCall.count] ∧
      (ensureObjectCount counterClient 3 id 7).state = 7 :=
  ensureObjectCount_too_many counterClient id 3 7 7 7 rfl (by decide)

/-! ## `setupNamespace` -/

/-- C9: over a remote whose `Get` raises no error other than not-found, whose `Create`
raises no error when it follows a `Get` that did not find the namespace, and whose `Get`
finds the namespace once that `Create` has made it, two consecutive calls
`setupNamespace(name)` both return and issue at most one remote `Create` in total, and a call made when the
namespace already exists (its `Get` succeeds) issues no `Create` and no settle wait: its
only step is the `Get`.  Nothing is asked of a `Create` for a namespace that exists. -/
theorem setupNamespace_idempotent {σ : Type} (c : NamespaceClient σ) (name : String) (s : σ)
    (hGet : ∀ t err, (c.Get name t).1 = some err → IsNotFound err = true)
    (hCreate : ∀ t err, (c.Get name t).1 = some err →
      (c.Create name (c.Get name t).2).1 = none)
    (hFind : ∀ t err, (c.Get name t).1 = some err →
      (c.Get name (c.Create name (c.Get name t).2).2).1 = none) :
    (setupNamespace c name s).completion = Completion.returned () ∧
      (setupNamespace c name (setupNamespace c name s).state).completion
        = Completion.returned () ∧
      namespaceCreates (setupNamespace c name s).trace
        + namespaceCreates (setupNamespace c name (setupNamespace c name s).state).trace ≤ 1 ∧
      (∀ t, (c.Get name t).1 = none →
        (setupNamespace c name t).trace = [NamespaceCall.get name]) := by
  have hexists : ∀ t, (c.Get name t).1 = none →
      (setupNamespace c name t).trace = [NamespaceCall.get name] ∧
        (setupNamespace c name t).completion = Completion.returned () := by
    intro t ht
    rcases hg : c.Get name t with ⟨e, t1⟩
    rw [hg] at ht
    simp only at ht
    subst ht
    simp [setupNamespace, hg]
  have hany : ∀ t, (setupNamespace c name t).completion = Completion.returned () ∧
      namespaceCreates (setupNamespace c name t).trace ≤ 1 ∧
      (namespaceCreates (setupNamespace c name t).trace = 1 →
        (c.Get name (setupNamespace c name t).state).1 = none) := by
    intro t
    rcases hg : c.Get name t with ⟨e, t1⟩
    cases e with
    | none => simp [setupNamespace, hg, namespaceCreates]
    | some err =>
      have hnf : IsNotFound err = true := hGet t err (by rw [hg])
      have hcr := hCreate t err (by rw [hg])
      have hfd := hFind t err (by rw [hg])
      rw [hg] at hcr hfd
      simp only at hcr hfd
      rcases hc : c.Create name t1 with ⟨e2, t2⟩
      rw [hc] at hcr hfd
      simp only at hcr hfd
      subst hcr
      refine ⟨by simp [setupNamespace, hg, hnf, hc],
        by simp [setupNamespace, hg, hnf, hc, namespaceCreates], fun _ => ?_⟩
      simpa [setupNamespace, hg, hnf, hc] using hfd
  obtain ⟨h1, h2, h3⟩ := hany s
  refine ⟨h1, (hany _).1, ?_, fun t ht => (hexists t ht).1⟩
  by_cases hone : namespaceCreates (setupNamespace c name s).trace = 1
  · have hsecond := (hexists (setupNamespace c name s).state (h3 hone)).1
    rw [hsecond, hone]
    simp [namespaceCreates]
  · have hzero : namespaceCreates (setupNamespace c name s).trace = 0 := by omega
    rw [hzero]
    have := (hany (setupNamespace c name s).state).2.1
    omega

theorem setupNamespace_idempotent_witness :
    (setupNamespace namespaceStore "empty" []).completion = Completion.returned () ∧
      (setupNamespace namespaceStore "empty"
        (setupNamespace namespaceStore "empty" []).state).completion
        = Completion.returned () ∧
      namespaceCreates (setupNamespace namespaceStore "empty" []).trace
        + namespaceCreates (setupNamespace namespaceStore "empty"
            (setupNamespace namespaceStore "empty" []).state).trace ≤ 1 ∧
      (∀ t, (namespaceStore.Get "empty" t).1 = none →
        (setupNamespace namespaceStore "empty" t).trace = [NamespaceCall.get "empty"]) :=
  setupNamespace_idempotent namespaceStore "empty" []
    (fun t err h => by
      simp only [namespaceStore] at h
      split at h
      · cases h
      · cases h
        decide)
    (fun t err h => by
      simp only [namespaceStore] at h ⊢
      split at h
      · cases h
      · rename_i hmem
        simp [hmem])
    (fun t err h => by
      simp only [namespaceStore] at h ⊢
      split at h
      · cases h
      · rename_i hmem
        simp [hmem])

/-- On a fresh remote the first call creates the namespace and waits, the second only
looks it up; the remote rejects a second `Create` of the name. -/
theorem setupNamespace_store_traces :
    (setupNamespace namespaceStore "empty" []).trace
        = [NamespaceCall.get "empty", NamespaceCall.create "empty", NamespaceCall.sleep 10] ∧
      (setupNamespace namespaceStore "empty"
        (setupNamespace namespaceStore "empty" []).state).trace
        = [NamespaceCall.get "empty"] ∧
      (namespaceStore.Create "empty" (setupNamespace namespaceStore "empty" []).state).1
        = some ⟨"AlreadyExists", 409⟩ := by
  decide

/-- A 404 answer without status reason counts as not-found: the namespace is created,
and a second call only looks it up. -/
theorem setupNamespace_bare_not_found :
    IsNotFound ⟨"", 404⟩ = true ∧ IsNotFound ⟨"AlreadyExists", 404⟩ = false ∧
      IsNotFound ⟨"", 0⟩ = false ∧
      (setupNamespace bareNotFoundStore "empty" []).trace
        = [NamespaceCall.get "empty", NamespaceCall.create "empty", NamespaceCall.sleep 10] ∧
      (setupNamespace bareNotFoundStore "empty" []).completion = Completion.returned () ∧
      (setupNamespace bareNotFoundStore "empty"
        (setupNamespace bareNotFoundStore "empty" []).state).trace
        = [NamespaceCall.get "empty"] := by
  decide

/-! ## `setupValidation` and `mustHaveValidation` -/

/-- When every version `v1` already carries a schema deeply equal to the desired one, the
loop over the versions leaves the definition as it was fetched. -/
theorem setSchemas_of_equal {α : Type} (deepEqual : Option α → Option α → Bool)
    (validation : Option α) (crd : CRD α)
    (h : ∀ version ∈ crd.Versions, version.Name = "v1" →
      deepEqual validation version.Schema = true) :
    setSchemas deepEqual validation crd = crd := by
  cases crd with
  | mk versions =>
    simp only [setSchemas, CRD.mk.injEq]
    have : ∀ version ∈ versions,
        (if (version.Name == "v1" && !deepEqual validation version.Schema) = true then
          (⟨version.Name, validation⟩ : CRDVersion α) else version) = version := by
      intro version hv
      by_cases hn : version.Name = "v1"
      · simp [h version hv hn]
      · simp [hn]
    rw [List.map_congr_left this, List.map_id']

/-- C8, as amended: for every definition that `Get` returns, `mustHaveValidation`
(and `setupValidation`, which calls it for `fooName`) issues exactly one `Update` call,
whether or not the schema of version `v1` is deeply equal to the desired validation, and
when that `Update` succeeds it then waits the settle delay of 5 seconds and returns; when
the schema is deeply equal the definition it sends is the one it fetched, unchanged, and
when the schema differs the definition it sends carries the desired validation for
version `v1`. -/
theorem mustHaveValidation_always_updates {α σ : Type}
    (deepEqual : Option α → Option α → Bool) (client : CRDClient α σ) (name : String)
    (validation : Option α) (s s1 : σ) (crd : CRD α)
    (hGet : client.Get name s = (Except.ok crd, s1)) :
    (∃ rest, (mustHaveValidation deepEqual client name validation s).trace
        = CRDCall.get name :: CRDCall.update (setSchemas deepEqual validation crd) :: rest ∧
        (rest = [] ∨ rest = [CRDCall.sleep 5])) ∧
      ((client.Update (setSchemas deepEqual validation crd) s1).1 = none →
        (mustHaveValidation deepEqual client name validation s).trace
          = [CRDCall.get name, CRDCall.update (setSchemas deepEqual validation crd),
              CRDCall.sleep 5] ∧
        (mustHaveValidation deepEqual client name validation s).completion
          = Completion.returned ()) ∧
      ((∀ version ∈ crd.Versions, version.Name = "v1" →
          deepEqual validation version.Schema = true) →
        setSchemas deepEqual validation crd = crd) ∧
      (∀ version ∈ crd.Versions, version.Name = "v1" →
        deepEqual validation version.Schema = false →
        (⟨"v1", validation⟩ : CRDVersion α)
          ∈ (setSchemas deepEqual validation crd).Versions) ∧
      (∀ (v : α) (enable : Bool), setupValidation deepEqual client v enable s
        = mustHaveValidation deepEqual client fooName (if enable then some v else none) s) := by
  refine ⟨?_, ?_, setSchemas_of_equal deepEqual validation crd, ?_, ?_⟩
  · rcases hu : client.Update (setSchemas deepEqual validation crd) s1 with ⟨e, s2⟩
    cases e with
    | none => exact ⟨[CRDCall.sleep 5], by simp [mustHaveValidation, hGet, hu], Or.inr rfl⟩
    | some err => exact ⟨[], by simp [mustHaveValidation, hGet, hu], Or.inl rfl⟩
  · intro hok
    rcases hu : client.Update (setSchemas deepEqual validation crd) s1 with ⟨e, s2⟩
    rw [hu] at hok
    simp only at hok
    subst hok
    simp [mustHaveValidation, hGet, hu]
  · intro version hv hn hne
    simp only [setSchemas, List.mem_map]
    exact ⟨version, hv, by simp [hn, hne]⟩
  · intro v enable
    cases enable <;> simp [setupValidation]

theorem mustHaveValidation_always_updates_witness :
    (mustHaveValidation (fun a b => a == b) crdStore fooName (some 7) sampleCRD).trace
      = [CRDCall.get fooName, CRDCall.update sampleCRD, CRDCall.sleep 5] :=
  ((mustHaveValidation_always_updates (fun a b => a == b) crdStore fooName (some 7)
    sampleCRD sampleCRD sampleCRD rfl).2.1 rfl).1

/-- C8 fails as stated: the stored definition carries for `v1` a schema deeply equal to
the desired one, and `setupValidation(true)` still issues an `Update` and then waits the
settle delay. -/
theorem setupValidation_counterexample :
    (∀ version ∈ sampleCRD.Versions, version.Name = "v1" →
        (some 7 == version.Schema) = true) ∧
      (setupValidation (fun a b => a == b) crdStore 7 true sampleCRD).trace
        = [CRDCall.get fooName, CRDCall.update sampleCRD, CRDCall.sleep 5] ∧
      ((setupValidation (fun a b => a == b) crdStore 7 true sampleCRD).trace.filter
        isUpdateOrSleep).length = 2 := by
  decide

/-! ## Object names -/

theorem digitChar_value : ∀ d, d < 10 → (Nat.digitChar d).toNat - 48 = d := by decide

theorem digitChar_ne_minus : ∀ d, d < 10 → Nat.digitChar d ≠ '-' := by decide

/-- Reading the decimal digits back gives the number: `%d` loses nothing. -/
theorem fmtNat_value (n : Nat) :
    Nat.ofDigits 10 ((fmtNat n).reverse.map (fun c => c.toNat - 48)) = n := by
  unfold fmtNat
  split
  · rename_i h0
    subst h0
    decide
  · rw [List.reverse_reverse, List.map_map]
    have hid : ∀ d ∈ Nat.digits 10 n, ((fun c : Char => c.toNat - 48) ∘ Nat.digitChar) d = d :=
      fun d hd => digitChar_value d (Nat.digits_lt_base (by decide) hd)
    rw [List.map_congr_left hid, List.map_id', Nat.ofDigits_digits]

theorem fmtNat_injective {a b : Nat} (h : fmtNat a = fmtNat b) : a = b := by
  have := congrArg (fun s => Nat.ofDigits 10 (s.reverse.map (fun c => c.toNat - 48))) h
  simpa only [fmtNat_value] using this

/-- The digits of a natural number contain no minus sign. -/
theorem fmtNat_no_minus (n : Nat) : '-' ∉ fmtNat n := by
  unfold fmtNat
  split
  · decide
  · intro hmem
    rw [List.mem_reverse, List.mem_map] at hmem
    obtain ⟨d, hd, hc⟩ := hmem
    exact digitChar_ne_minus d (Nat.digits_lt_base (by decide) hd) hc

theorem fmtInt_injective {x y : Int} (h : fmtInt x = fmtInt y) : x = y := by
  unfold fmtInt at h
  split at h <;> split at h
  · have := fmtNat_injective (List.cons.inj h).2
    omega
  · exact absurd (h ▸ List.mem_cons_self '-' _) (fmtNat_no_minus _)
  · exact absurd (h.symm ▸ List.mem_cons_self '-' _) (fmtNat_no_minus _)
  · have := fmtNat_injective h
    omega

/-- Two texts that agree and are each cut at the first occurrence of a separator agree
on both sides of it. -/
theorem split_at_separator (a : Char) :
    ∀ (l1 l2 r1 r2 : List Char), a ∉ l1 → a ∉ l2 → l1 ++ a :: r1 = l2 ++ a :: r2 →
      l1 = l2 ∧ r1 = r2 := by
  intro l1
  induction l1 with
  | nil =>
    intro l2 r1 r2 _ h2 h
    cases l2 with
    | nil => exact ⟨rfl, (List.cons.inj h).2⟩
    | cons c cs =>
      have hc : a = c := (List.cons.inj h).1
      exact absurd (hc ▸ List.mem_cons_self a cs) h2
  | cons b bs ih =>
    intro l2 r1 r2 h1 h2 h
    cases l2 with
    | nil =>
      have hc : b = a := (List.cons.inj h).1
      exact absurd (hc ▸ List.mem_cons_self b bs) h1
    | cons c cs =>
      obtain ⟨hbc, htl⟩ := List.cons.inj h
      obtain ⟨e1, e2⟩ := ih cs r1 r2 (fun hm => h1 (List.mem_cons_of_mem _ hm))
        (fun hm => h2 (List.mem_cons_of_mem _ hm)) htl
      exact ⟨by rw [hbc, e1], e2⟩

/-- Names built from non-negative nanoseconds are equal only for equal indices. -/
theorem createName_index {n1 n2 i j : Int} (h1 : 0 ≤ n1) (h2 : 0 ≤ n2)
    (h : createName n1 i = createName n2 j) : i = j := by
  unfold createName at h
  have e1 : fmtInt n1 = fmtNat n1.natAbs := by simp [fmtInt, not_lt.mpr h1]
  have e2 : fmtInt n2 = fmtNat n2.natAbs := by simp [fmtInt, not_lt.mpr h2]
  rw [e1, e2] at h
  exact fmtInt_injective
    (split_at_separator '-' _ _ _ _ (fmtNat_no_minus _) (fmtNat_no_minus _) h).2

/-- C5: the name `"<nanosecond>-<index>"` never collides across the `F` concurrent calls
of `benchmarkCreateThroughput`: for distinct indices `i ≠ j` in `[0, F)` and any
nanosecond components in `[0, 10^9)` the two names differ, so the `F` creates produce
`F` pairwise distinct names. -/
theorem create_names_distinct (F : Nat) :
    (∀ n1 n2 i j : Int, 0 ≤ n1 → n1 < 10 ^ 9 → 0 ≤ n2 → n2 < 10 ^ 9 →
        0 ≤ i → i < F → 0 ≤ j → j < F → i ≠ j → createName n1 i ≠ createName n2 j) ∧
      (∀ nanos : Nat → Int, (∀ i, 0 ≤ nanos i ∧ nanos i < 10 ^ 9) →
        (throughputNames F nanos).Nodup ∧ (throughputNames F nanos).length = F) := by
  constructor
  · intro n1 n2 i j h1 _ h2 _ _ _ _ _ hij h
    exact hij (createName_index h1 h2 h)
  · intro nanos hn
    refine ⟨?_, by simp [throughputNames]⟩
    unfold throughputNames
    refine List.Nodup.map_on ?_ (List.nodup_range F)
    intro x _ y _ hxy
    have := createName_index (hn x).1 (hn y).1 hxy
    omega

theorem create_names_distinct_witness :
    createName 999999999 0 ≠ createName 0 1 ∧
      (throughputNames 100 (fun _ => 5)).Nodup :=
  ⟨(create_names_distinct 100).1 999999999 0 0 1 (by decide) (by decide) (by decide)
      (by decide) (by decide) (by decide) (by decide) (by decide) (by decide),
    ((create_names_distinct 100).2 (fun _ => 5) (fun _ =>
      ⟨show (0 : Int) ≤ 5 by decide, show (5 : Int) < 10 ^ 9 by decide⟩)).1⟩

/-- The name of the create with index 42 at nanosecond 123456789. -/
theorem createName_sample : createName 123456789 42 = "123456789-42".toList := by
  simp [createName, fmtInt, fmtNat]
  decide

end ScaleBench
